import Mathlib

/-!
Verification of the SeqSmith repository: a shallow embedding of its
line-oriented parsers and the FASTQ filtering pipeline, with theorems
checking the natural-language specification against the code.

Python strings are modelled as `List Char`; Python numeric values
(lengths, GC percentages, quality scores, bounds) as `ℚ`; fallible
operations (a `StopIteration` escaping a parser, a `FileExistsError`
from a writer) as `Option` / explicit error results.
-/

/-- Whitespace characters removed by a Python bare `str.strip()` call
(the ASCII whitespace set). -/
def isPySpace (c : Char) : Bool :=
  c = ' ' || c = '\t' || c = '\n' || c = '\r' || c = '\x0b' || c = '\x0c'

/-- Model of a Python bare `s.strip()`: removes leading and trailing
whitespace. -/
def pyStrip (s : List Char) : List Char :=
  ((s.dropWhile isPySpace).reverse.dropWhile isPySpace).reverse

/-- Model of a Python `s.strip(c)` for a single character `c`: removes
every leading and trailing occurrence of `c`. -/
def pyStripChar (c : Char) (s : List Char) : List Char :=
  ((s.dropWhile (· = c)).reverse.dropWhile (· = c)).reverse

/-- Model of a Python `line.startswith(str(c))` for a one-character
marker `c`. -/
def startsChar (c : Char) : List Char → Bool
  | [] => false
  | a :: _ => a = c

/-- Python `round` on rationals: round-half-to-even (banker's rounding),
as used by `round(x, 3)` on the integer part after scaling. -/
def pyRoundHalfEven (q : ℚ) : ℤ :=
  if q - ⌊q⌋ < 1/2 then ⌊q⌋
  else if q - ⌊q⌋ > 1/2 then ⌊q⌋ + 1
  else if Even ⌊q⌋ then ⌊q⌋ else ⌊q⌋ + 1

/-- Python `round(q, 3)`: rounding to three decimal places. -/
def pyRound3 (q : ℚ) : ℚ := (pyRoundHalfEven (q * 1000) : ℚ) / 1000

/-! ## FASTQ record model and the filtering predicates

A FASTQ record, as handled both by `filter_fastq` (src/seqsmith.py) and
by the batch utilities (src/utils/filter_fastq_utils.py), is a triple
(name, (sequence, quality)).  -/

/-- One FASTQ record: `(name, (sequence, quality))`, the shape of a
single item of the `seqs` dictionaries in src/utils/filter_fastq_utils.py. -/
abbrev FqItem : Type := List Char × List Char × List Char

/-- From src/utils/filter_fastq_utils.py, `gc_counter`: percentage of
G and C in the uppercased sequence, `(g + c) / len * 100`, not rounded. -/
def gc_counter (sequence : List Char) : ℚ :=
  (((sequence.map Char.toUpper).count 'G' : ℚ)
    + ((sequence.map Char.toUpper).count 'C' : ℚ))
    / (sequence.length : ℚ) * 100

/-- Modelled from the spec: the external collaborator `gc_fraction`
(Biopython) used by `filter_fastq` in src/seqsmith.py is, per the spec,
the fraction of `G`/`C` characters (case-insensitive) in the sequence. -/
def gc_fraction (sequence : List Char) : ℚ :=
  (((sequence.map Char.toUpper).count 'G' : ℚ)
    + ((sequence.map Char.toUpper).count 'C' : ℚ))
    / (sequence.length : ℚ)

/-- From src/utils/filter_fastq_utils.py, `quality_counter`: mean of
`ord(symbol) - 33` over the quality string. `filter_fastq` in
src/seqsmith.py computes the same mean from the parsed phred scores. -/
def quality_counter (quality : List Char) : ℚ :=
  ((quality.map (fun symbol => (symbol.toNat : ℚ) - 33)).sum)
    / (quality.length : ℚ)

/-- The inclusive double-comparison `bounds[0] <= v <= bounds[1]` used by
every bounded predicate in the code. -/
def inBounds (bounds : ℚ × ℚ) (v : ℚ) : Bool :=
  decide (bounds.1 ≤ v) && decide (v ≤ bounds.2)

/-- The length predicate of `filter_fastq` (src/seqsmith.py line 250):
`length_bounds[0] <= seq_len <= length_bounds[1]`. -/
def lengthPred (length_bounds : ℚ × ℚ) (sequence : List Char) : Bool :=
  inBounds length_bounds (sequence.length : ℚ)

/-- The GC predicate of `filter_fastq` (src/seqsmith.py lines 245, 252):
`gc_bounds[0] <= gc_fraction(seq) * 100 <= gc_bounds[1]`, no rounding. -/
def gcPred (gc_bounds : ℚ × ℚ) (sequence : List Char) : Bool :=
  inBounds gc_bounds (gc_fraction sequence * 100)

/-- The GC predicate as the specification words it: the percentage
rounded to 3 decimal places, compared against the bounds. Stated only to
be compared against `gcPred`, the predicate the code actually runs. -/
def gcPredSpecRounded (gc_bounds : ℚ × ℚ) (sequence : List Char) : Bool :=
  inBounds gc_bounds (pyRound3 (gc_fraction sequence * 100))

/-- The quality predicate of `filter_fastq` (src/seqsmith.py lines
246-248, 254): `quality_threshold <= mean phred quality`. -/
def qualityPred (quality_threshold : ℚ) (quality : List Char) : Bool :=
  decide (quality_threshold ≤ quality_counter quality)

/-- The streaming record loop of `filter_fastq` (src/seqsmith.py lines
241-258): records are taken one at a time; the length, GC and mean
quality predicates are checked in that order, a failing predicate skips
the record (`continue`), and a passing record is emitted immediately. -/
def filter_fastq_records (records : List FqItem)
    (gc_bounds length_bounds : ℚ × ℚ) (quality_threshold : ℚ) :
    List FqItem :=
  match records with
  | [] => []
  | r :: rs =>
    let rest := filter_fastq_records rs gc_bounds length_bounds quality_threshold
    if ¬(lengthPred length_bounds r.2.1 = true) then rest
    else if ¬(gcPred gc_bounds r.2.1 = true) then rest
    else if ¬(qualityPred quality_threshold r.2.2 = true) then rest
    else r :: rest

/-- From src/utils/filter_fastq_utils.py, `filter_length`: keep the
records whose sequence length lies within `length_bounds`, preserving
insertion order. -/
def filter_length (seqs : List FqItem) (length_bounds : ℚ × ℚ) :
    List FqItem :=
  seqs.filter (fun it =>
    decide (length_bounds.1 ≤ (it.2.1.length : ℚ)
      ∧ (it.2.1.length : ℚ) ≤ length_bounds.2))

/-- From src/utils/filter_fastq_utils.py, `filter_gc`: keep the records
whose `gc_counter` value lies within `gc_bounds`. -/
def filter_gc (seqs : List FqItem) (gc_bounds : ℚ × ℚ) : List FqItem :=
  seqs.filter (fun it =>
    decide (gc_bounds.1 ≤ gc_counter it.2.1
      ∧ gc_counter it.2.1 ≤ gc_bounds.2))

/-- From src/utils/filter_fastq_utils.py, `filter_quality`: keep the
records whose mean quality is at least `quality_threshold`. -/
def filter_quality (seqs : List FqItem) (quality_threshold : ℚ) :
    List FqItem :=
  seqs.filter (fun it =>
    decide (quality_threshold ≤ quality_counter it.2.2))

/-- Bounds normalization from `filter_fastq` (src/seqsmith.py lines
230-233): a scalar `x` becomes the pair `(0, x)`, a pair is passed
through unchanged. -/
def normalize_bounds (b : Sum ℚ (ℚ × ℚ)) : ℚ × ℚ :=
  match b with
  | .inl x => (0, x)
  | .inr p => p

/-- From src/seqsmith.py lines 82-86, `NucleicAcidSequence.gc_content`:
percentage of characters whose uppercase form is G or C, rounded to
3 decimal places; an empty sequence short-circuits to `0.0`. -/
def gc_content (sequence : List Char) : ℚ :=
  if sequence.isEmpty then 0
  else pyRound3
    (((sequence.countP (fun n => n.toUpper = 'G' || n.toUpper = 'C')) : ℚ)
      / (sequence.length : ℚ) * 100)

/-! ## Helper lemmas for the filtering claims -/

theorem gc_fraction_mul_100 (s : List Char) :
    gc_fraction s * 100 = gc_counter s := rfl

theorem filter_batch_eq_conj (l : List FqItem) (gcB lenB : ℚ × ℚ) (qT : ℚ) :
    filter_quality (filter_gc (filter_length l lenB) gcB) qT
      = l.filter (fun r =>
          lengthPred lenB r.2.1 && gcPred gcB r.2.1 && qualityPred qT r.2.2) := by
  simp only [filter_quality, filter_gc, filter_length, List.filter_filter]
  apply List.filter_congr
  intro r _
  simp [lengthPred, gcPred, qualityPred, inBounds, gc_fraction_mul_100,
    Bool.and_assoc, Bool.and_comm, Bool.and_left_comm]

theorem filter_stream_eq_conj (records : List FqItem)
    (gcB lenB : ℚ × ℚ) (qT : ℚ) :
    filter_fastq_records records gcB lenB qT
      = records.filter (fun r =>
          lengthPred lenB r.2.1 && gcPred gcB r.2.1 && qualityPred qT r.2.2) := by
  induction records with
  | nil => rfl
  | cons r rs ih =>
    simp only [filter_fastq_records, List.filter_cons]
    by_cases h1 : lengthPred lenB r.2.1 = true
    · by_cases h2 : gcPred gcB r.2.1 = true
      · by_cases h3 : qualityPred qT r.2.2 = true
        · simp [h1, h2, h3, ih]
        · simp [h1, h2, h3, ih]
      · simp [h1, h2, ih]
    · simp [h1, ih]

/-- C1: the streaming filter of src/seqsmith.py emits exactly the records
that pass all three predicates (length in bounds, GC% in bounds, mean
quality at or above the threshold), in source order: it coincides with
batch-filtering a fully materialized record list through the three
utility filters of src/utils/filter_fastq_utils.py, and with a single
filter by the conjunction of the three predicates. -/
theorem c1_stream_filter_equiv_batch (records : List FqItem)
    (gc_bounds length_bounds : ℚ × ℚ) (quality_threshold : ℚ) :
    filter_fastq_records records gc_bounds length_bounds quality_threshold
      = filter_quality
          (filter_gc (filter_length records length_bounds) gc_bounds)
          quality_threshold
    ∧ filter_fastq_records records gc_bounds length_bounds quality_threshold
      = records.filter (fun r =>
          lengthPred length_bounds r.2.1 && gcPred gc_bounds r.2.1
            && qualityPred quality_threshold r.2.2) :=
  ⟨(filter_stream_eq_conj ..).trans (filter_batch_eq_conj ..).symm,
    filter_stream_eq_conj ..⟩

/-- C2 counterexample: the claim says the GC predicate passes iff the
percentage rounded to 3 decimal places lies within the bounds; on the
sequence GCT (GC% = 200/3 = 66.666...) with bounds (66.667, 100) the
rounded percentage is within the bounds but the predicate the code runs
(unrounded comparison) fails. -/
theorem c2_gc_rounding_counterexample :
    gcPred (66667/1000, 100) "GCT".data = false
    ∧ gcPredSpecRounded (66667/1000, 100) "GCT".data = true := by
  have h1 : (("GCT".data.map Char.toUpper).count 'G') = 1 := by decide
  have h2 : (("GCT".data.map Char.toUpper).count 'C') = 1 := by decide
  have h3 : ("GCT".data.length : ℚ) = 3 := by norm_num
  have hfrac : gc_fraction "GCT".data * 100 = 200/3 := by
    rw [gc_fraction, h1, h2, h3]
    norm_num
  have hfloor : ⌊(200/3 : ℚ) * 1000⌋ = 66666 := by
    rw [show ((200 : ℚ)/3 * 1000) = 200000/3 by norm_num]
    norm_num [Int.floor_eq_iff]
  have hround : pyRound3 ((200 : ℚ)/3) = 66667/1000 := by
    rw [pyRound3, pyRoundHalfEven, hfloor]
    rw [if_neg (by norm_num), if_pos (by norm_num)]
    norm_num
  constructor
  · rw [gcPred, hfrac]
    have hlt : ¬((66667 : ℚ)/1000 ≤ 200/3) := by norm_num
    simp [inBounds, hlt]
  · rw [gcPredSpecRounded, hfrac, hround]
    have ha : ((66667 : ℚ)/1000 ≤ 66667/1000) := le_refl _
    have hb : ((66667 : ℚ)/1000 ≤ 100) := by norm_num
    simp [inBounds, ha, hb]

/-- C2 (amended): the GC predicate the streaming filter runs passes iff
the unrounded percentage of G/C characters (case-insensitive) in the
sequence — the value `gc_counter` computes — lies within the normalized
GC bounds, inclusive on both ends; no rounding to 3 decimal places is
applied. -/
theorem c2_gc_predicate_unrounded (gc_bounds : ℚ × ℚ) (sequence : List Char) :
    gcPred gc_bounds sequence = true
      ↔ (gc_bounds.1 ≤ gc_counter sequence
          ∧ gc_counter sequence ≤ gc_bounds.2) := by
  rw [gcPred, gc_fraction_mul_100]
  simp [inBounds]

/-- C8: bounds normalization maps a scalar x to the pair (0, x), is the
identity on pairs, and a pair with low > high is accepted unchanged and
makes the inclusive in-bounds predicate reject every value. -/
theorem c8_bounds_normalizer :
    (∀ x : ℚ, normalize_bounds (Sum.inl x) = (0, x))
    ∧ (∀ p : ℚ × ℚ, normalize_bounds (Sum.inr p) = p)
    ∧ (∀ a b v : ℚ, b < a → inBounds (a, b) v = false) := by
  refine ⟨fun x => rfl, fun p => rfl, ?_⟩
  intro a b v hba
  by_cases h : a ≤ v
  · have hv : ¬(v ≤ b) := by linarith
    simp [inBounds, h, hv]
  · simp [inBounds, h]

/-- C8 witness: the always-false part of c8_bounds_normalizer at the
concrete inverted bounds (2, 1) and value 5. -/
theorem c8_bounds_normalizer_witness :
    (1 : ℚ) < 2 ∧ inBounds ((2 : ℚ), (1 : ℚ)) 5 = false :=
  ⟨by norm_num, c8_bounds_normalizer.2.2 2 1 5 (by norm_num)⟩

/-- C9: gc_content is total: on the empty sequence it returns 0 (no
division is attempted), and on every non-empty sequence the denominator
of the division is nonzero and the rounded formula is returned. -/
theorem c9_gc_content_total :
    gc_content [] = 0
    ∧ ∀ s : List Char, s ≠ [] →
        ((s.length : ℚ) ≠ 0
          ∧ gc_content s = pyRound3
              (((s.countP (fun n => n.toUpper = 'G' || n.toUpper = 'C')) : ℚ)
                / (s.length : ℚ) * 100)) := by
  constructor
  · rfl
  · intro s hs
    have hlen : s.length ≠ 0 := by
      simpa [List.length_eq_zero] using hs
    constructor
    · exact_mod_cast hlen
    · simp [gc_content, hs]

/-- C9 witness: c9_gc_content_total applied to the one-character
sequence G. -/
theorem c9_gc_content_total_witness :
    (['G'] : List Char) ≠ []
    ∧ (((['G'] : List Char).length : ℚ) ≠ 0
        ∧ gc_content ['G'] = pyRound3
            ((((['G'] : List Char).countP
                (fun n => n.toUpper = 'G' || n.toUpper = 'C')) : ℚ)
              / ((['G'] : List Char).length : ℚ) * 100)) :=
  ⟨by decide, c9_gc_content_total.2 ['G'] (by decide)⟩

/-! ## RecordAssembler: convert_multiline_fasta_to_oneline
(src/bio_files_processor.py lines 34-50) -/

/-- The flush step of the FASTA merge loop: the accumulated sequence is
written out only when it is non-empty (the Python truthiness test
`if sequence:`). -/
def flushSeq (sequence : List Char) : List (List Char) :=
  if sequence.isEmpty then [] else [sequence]

/-- The line loop of `convert_multiline_fasta_to_oneline`: each line is
stripped; a line starting with the marker flushes the pending sequence
and is written itself; any other line is appended to the accumulator;
a final non-empty accumulator is flushed at end of input. The returned
list is the sequence of lines written to the output file. -/
def processFasta : List (List Char) → List Char → List (List Char)
  | [], sequence => flushSeq sequence
  | l :: ls, sequence =>
    let line := pyStrip l
    if startsChar '>' line then
      flushSeq sequence ++ [line] ++ processFasta ls []
    else processFasta ls (sequence ++ line)

/-- Model of `convert_multiline_fasta_to_oneline` on the input lines:
the list of output lines. -/
def convert_multiline (lines : List (List Char)) : List (List Char) :=
  processFasta lines []

/-- A source FASTA block: a marker line plus the raw body lines that
follow it. -/
abbrev FastaBlock : Type := List Char × List (List Char)

/-- The raw input lines of a block. -/
def blockLines (b : FastaBlock) : List (List Char) := b.1 :: b.2

/-- The normalized body of a block: the concatenation of its stripped
body lines. -/
def blockBody (b : FastaBlock) : List Char := (b.2.map pyStrip).flatten

theorem processFasta_cons (l : List Char) (ls : List (List Char))
    (acc : List Char) :
    processFasta (l :: ls) acc =
      if startsChar '>' (pyStrip l)
      then flushSeq acc ++ [pyStrip l] ++ processFasta ls []
      else processFasta ls (acc ++ pyStrip l) := rfl

theorem processFasta_body (body : List (List Char)) :
    ∀ (rest : List (List Char)) (acc : List Char),
    (∀ l ∈ body, startsChar '>' (pyStrip l) = false) →
    processFasta (body ++ rest) acc
      = processFasta rest (acc ++ (body.map pyStrip).flatten) := by
  induction body with
  | nil => intro rest acc _; simp
  | cons l ls ih =>
    intro rest acc hb
    have hl : startsChar '>' (pyStrip l) = false := hb l (by simp)
    rw [List.cons_append, processFasta_cons, if_neg (by simp [hl])]
    rw [ih rest (acc ++ pyStrip l) (fun x hx => hb x (by simp [hx]))]
    simp [List.append_assoc]

theorem processFasta_blocks (blocks : List FastaBlock) :
    ∀ acc : List Char,
    (∀ b ∈ blocks, startsChar '>' (pyStrip b.1) = true
      ∧ (∀ l ∈ b.2, startsChar '>' (pyStrip l) = false)
      ∧ blockBody b ≠ []) →
    processFasta (blocks.flatMap blockLines) acc
      = flushSeq acc ++ blocks.flatMap (fun b => [pyStrip b.1, blockBody b]) := by
  induction blocks with
  | nil => intro acc _; simp [processFasta]
  | cons b bs ih =>
    intro acc h
    obtain ⟨hm, hbody, hne⟩ := h b (by simp)
    rw [List.flatMap_cons]
    show processFasta ((b.1 :: b.2) ++ _) acc = _
    rw [List.cons_append, processFasta_cons, if_pos (by simp [hm])]
    rw [processFasta_body b.2 (bs.flatMap blockLines) [] hbody]
    rw [ih _ (fun x hx => h x (by simp [hx]))]
    have hflush : flushSeq (([] : List Char) ++ (b.2.map pyStrip).flatten)
        = [(b.2.map pyStrip).flatten] := by
      rw [List.nil_append, flushSeq, if_neg]
      simpa [List.isEmpty_iff, blockBody] using hne
    rw [hflush]
    simp [blockBody]

/-- C3: for every input made of N marker blocks, each with a non-empty
stripped body, the FASTA merge emits per block exactly the stripped
marker line followed by one line holding the concatenation of the
stripped body lines (so exactly N records, in source order, with no
internal line breaks), and on the concrete input >x AC GT >y TT it
produces >x ACGT >y TT. -/
theorem c3_record_assembler :
    (∀ blocks : List FastaBlock,
      (∀ b ∈ blocks, startsChar '>' (pyStrip b.1) = true
        ∧ (∀ l ∈ b.2, startsChar '>' (pyStrip l) = false)
        ∧ blockBody b ≠ []) →
      convert_multiline (blocks.flatMap blockLines)
        = blocks.flatMap (fun b => [pyStrip b.1, blockBody b]))
    ∧ convert_multiline
        [">x".data, "AC".data, "GT".data, ">y".data, "TT".data]
      = [">x".data, "ACGT".data, ">y".data, "TT".data] := by
  constructor
  · intro blocks h
    rw [convert_multiline, processFasta_blocks blocks [] h]
    rfl
  · decide

/-- C3 witness: the general part of c3_record_assembler applied to the
two concrete blocks of the scenario. -/
theorem c3_record_assembler_witness :
    ((∀ b ∈ ([(">x".data, ["AC".data, "GT".data]),
              (">y".data, ["TT".data])] : List FastaBlock),
        startsChar '>' (pyStrip b.1) = true
        ∧ (∀ l ∈ b.2, startsChar '>' (pyStrip l) = false)
        ∧ blockBody b ≠ []))
    ∧ convert_multiline
        (([(">x".data, ["AC".data, "GT".data]),
           (">y".data, ["TT".data])] : List FastaBlock).flatMap blockLines)
      = ([(">x".data, ["AC".data, "GT".data]),
          (">y".data, ["TT".data])] : List FastaBlock).flatMap
          (fun b => [pyStrip b.1, blockBody b]) :=
  ⟨by decide, c3_record_assembler.1 _ (by decide)⟩

/-! ## StreamFilter record grouping: fastq_to_dict_generator
(src/utils/filter_fastq_utils.py lines 57-69) -/

/-- The 4-line record grouper: name, sequence, separator (read and
discarded), quality; any `StopIteration` hit while fewer than 4 lines
remain is caught and simply ends the stream, discarding the partial
group. -/
def fastq_to_dict_generator : List (List Char) → List FqItem
  | name :: sequence :: _ :: quality :: rest =>
      (pyStrip name, pyStrip sequence, pyStrip quality)
        :: fastq_to_dict_generator rest
  | _ => []

theorem fastq_gen_short (tail : List (List Char)) (h : tail.length < 4) :
    fastq_to_dict_generator tail = [] := by
  match tail with
  | [] => rfl
  | [a] => rfl
  | [a, b] => rfl
  | [a, b, c] => rfl
  | a :: b :: c :: d :: r => simp at h; omega

/-- C5: on an input made of complete 4-line groups followed by a partial
trailing group of fewer than 4 lines, the record grouper yields exactly
one record per complete group (name, sequence and quality stripped, the
third line ignored) and silently discards the trailing lines — no
malformed record and no error. -/
theorem c5_partial_group_discarded
    (groups : List (List Char × List Char × List Char × List Char))
    (tail : List (List Char)) (htail : tail.length < 4) :
    fastq_to_dict_generator
        (groups.flatMap (fun g => [g.1, g.2.1, g.2.2.1, g.2.2.2]) ++ tail)
      = groups.map (fun g => (pyStrip g.1, pyStrip g.2.1, pyStrip g.2.2.2))
    ∧ (fastq_to_dict_generator
        (groups.flatMap (fun g => [g.1, g.2.1, g.2.2.1, g.2.2.2]) ++ tail)).length
      = groups.length := by
  have hmain : fastq_to_dict_generator
      (groups.flatMap (fun g => [g.1, g.2.1, g.2.2.1, g.2.2.2]) ++ tail)
      = groups.map (fun g => (pyStrip g.1, pyStrip g.2.1, pyStrip g.2.2.2)) := by
    induction groups with
    | nil =>
      rw [List.flatMap_nil, List.nil_append, List.map_nil]
      exact fastq_gen_short tail htail
    | cons g gs ih =>
      rw [List.flatMap_cons, List.map_cons]
      show fastq_to_dict_generator
        (g.1 :: g.2.1 :: g.2.2.1 :: g.2.2.2 :: _) = _
      rw [fastq_to_dict_generator]
      exact congrArg _ ih
  exact ⟨hmain, by rw [hmain, List.length_map]⟩

/-- C5 witness: one complete group followed by a single stray line. -/
theorem c5_partial_group_discarded_witness :
    (["@x".data] : List (List Char)).length < 4
    ∧ (fastq_to_dict_generator
        (([("@r1".data, "ACGT".data, "+".data, "!!!!".data)]
          : List (List Char × List Char × List Char × List Char)).flatMap
            (fun g => [g.1, g.2.1, g.2.2.1, g.2.2.2]) ++ ["@x".data])
      = [("@r1".data, "ACGT".data, "+".data, "!!!!".data)].map
          (fun g => (pyStrip g.1, pyStrip g.2.1, pyStrip g.2.2.2))
    ∧ (fastq_to_dict_generator
        (([("@r1".data, "ACGT".data, "+".data, "!!!!".data)]
          : List (List Char × List Char × List Char × List Char)).flatMap
            (fun g => [g.1, g.2.1, g.2.2.1, g.2.2.2]) ++ ["@x".data])).length
      = [("@r1".data, "ACGT".data, "+".data, "!!!!".data)].length) :=
  ⟨by decide, c5_partial_group_discarded _ _ (by decide)⟩

/-! ## AnnotationExtractor: parse_blast_output
(src/bio_files_processor.py lines 53-92) -/

/-- Model of the truncation Python performs with s.split(two spaces)[0]:
the prefix of the string before the first occurrence of two consecutive
space characters. -/
def splitTwoSpaces : List Char → List Char
  | ' ' :: ' ' :: _ => []
  | c :: rest => c :: splitTwoSpaces rest
  | [] => []

/-- Python string comparison (as used by list.sort on strings):
lexicographic by code point, a prefix sorting before its extensions. -/
def lexLe : List Char → List Char → Bool
  | [], _ => true
  | _ :: _, [] => false
  | a :: as, b :: bs =>
    if a.toNat < b.toNat then true
    else if b.toNat < a.toNat then false
    else lexLe as bs

/-- The collection loop of `parse_blast_output`: on each line whose
stripped form starts with the Description label, the next line is
consumed, stripped, truncated before the first two consecutive spaces,
and stripped again; a Description line that is the last line of input
makes the `next` call raise, modelled as `none`. -/
def blast_descriptions : List (List Char) → Option (List (List Char))
  | [] => some []
  | l :: ls =>
    if ("Description".data).isPrefixOf (pyStrip l) then
      match ls with
      | [] => none
      | d :: ls' =>
        (blast_descriptions ls').map
          (fun r => pyStrip (splitTwoSpaces (pyStrip d)) :: r)
    else blast_descriptions ls

/-- Model of `parse_blast_output`: the collected descriptions, sorted
ascending, one output line per value. -/
def parse_blast_output (lines : List (List Char)) :
    Option (List (List Char)) :=
  (blast_descriptions lines).map (fun ds => ds.mergeSort lexLe)

theorem lexLe_cons_iff (x y : Char) (xs ys : List Char) :
    lexLe (x :: xs) (y :: ys) = true ↔
      (x.toNat < y.toNat ∨ (x.toNat = y.toNat ∧ lexLe xs ys = true)) := by
  show (if x.toNat < y.toNat then true
    else if y.toNat < x.toNat then false else lexLe xs ys) = true ↔ _
  by_cases h1 : x.toNat < y.toNat
  · simp [h1]
  · by_cases h2 : y.toNat < x.toNat
    · simp [h1, h2]; omega
    · have h3 : x.toNat = y.toNat := by omega
      simp [h1, h2, h3]

theorem lexLe_total : ∀ a b : List Char, (lexLe a b || lexLe b a) = true := by
  intro a
  induction a with
  | nil => intro b; simp [lexLe]
  | cons x xs ih =>
    intro b
    cases b with
    | nil => simp [lexLe]
    | cons y ys =>
      rcases Bool.or_eq_true_iff.mp (ih ys) with h | h
      · by_cases h1 : x.toNat < y.toNat
        · simp [lexLe_cons_iff, h1]
        · by_cases h2 : y.toNat < x.toNat
          · simp [lexLe_cons_iff, h2]
          · simp [lexLe_cons_iff, h1, h2, h]
            omega
      · by_cases h1 : x.toNat < y.toNat
        · simp [lexLe_cons_iff, h1]
        · by_cases h2 : y.toNat < x.toNat
          · simp [lexLe_cons_iff, h2]
          · simp [lexLe_cons_iff, h1, h2, h]
            omega

theorem lexLe_trans : ∀ a b c : List Char,
    lexLe a b = true → lexLe b c = true → lexLe a c = true := by
  intro a
  induction a with
  | nil => intro b c _ _; simp [lexLe]
  | cons x xs ih =>
    intro b c hab hbc
    cases b with
    | nil => simp [lexLe] at hab
    | cons y ys =>
      cases c with
      | nil => simp [lexLe] at hbc
      | cons z zs =>
        rw [lexLe_cons_iff] at hab hbc ⊢
        rcases hab with h1 | ⟨h1, h1r⟩
        · rcases hbc with h2 | ⟨h2, _⟩
          · exact Or.inl (by omega)
          · exact Or.inl (by omega)
        · rcases hbc with h2 | ⟨h2, h2r⟩
          · exact Or.inl (by omega)
          · exact Or.inr ⟨by omega, ih ys zs h1r h2r⟩

/-- C7 (amended): whenever the collection loop succeeds (every
Description line has a following line), the written output is exactly
the collected values — next line stripped, truncated before the first
two consecutive spaces, then stripped again — sorted ascending
lexicographically, one per line: the output is sorted under lexLe and is
a permutation of the collection. -/
theorem c7_blast_sorted_output (lines : List (List Char))
    (descriptions : List (List Char))
    (h : blast_descriptions lines = some descriptions) :
    parse_blast_output lines = some (descriptions.mergeSort lexLe)
    ∧ (descriptions.mergeSort lexLe).Pairwise (fun a b => lexLe a b = true)
    ∧ (descriptions.mergeSort lexLe).Perm descriptions := by
  refine ⟨by simp [parse_blast_output, h], ?_, List.mergeSort_perm ..⟩
  exact List.sorted_mergeSort (fun a b c => lexLe_trans a b c) lexLe_total _

/-- C7 witness: c7_blast_sorted_output on a two-block input whose
collected values arrive out of order. -/
theorem c7_blast_sorted_output_witness :
    parse_blast_output
        ["Description".data, "b".data, "Description".data, "a".data]
      = some ((["b".data, "a".data] : List (List Char)).mergeSort lexLe)
    ∧ ((["b".data, "a".data] : List (List Char)).mergeSort lexLe).Pairwise
        (fun a b => lexLe a b = true)
    ∧ ((["b".data, "a".data] : List (List Char)).mergeSort lexLe).Perm
        ["b".data, "a".data] :=
  c7_blast_sorted_output _ _ (by decide)

/-- C7 counterexample: the claim reads the kept value as the next line
trimmed and then truncated before the first two consecutive spaces; the
code additionally strips the truncated value. On the next line
consisting of space, x, tab, space, space, y the code keeps x while
trim-then-truncate keeps x followed by a tab. -/
theorem c7_blast_trim_counterexample :
    blast_descriptions ["Description".data, " x\t  y".data]
      = some ["x".data]
    ∧ splitTwoSpaces (pyStrip " x\t  y".data) = "x\t".data
    ∧ "x".data ≠ "x\t".data :=
  ⟨by decide, by decide, by decide⟩

/-! ## FeatureWindowExtractor: select_genes_from_gbk_to_fasta
(src/bio_files_processor.py lines 95-177) -/

/-- Python list slicing l[start:stop] for the in-range indices the
window code produces (start and stop already clamped to the list). -/
def pySlice {α : Type} (l : List α) (start stop : ℕ) : List α :=
  (l.drop start).take (stop - start)

/-- The index-collection loop (src/bio_files_processor.py lines
164-167): the indices, in list order, of committed entries whose gene
name is in the requested list. -/
def genes_index (fasta_list : List (List Char × List Char))
    (genes : List (List Char)) : List ℕ :=
  (fasta_list.enum.filter (fun q => decide (q.2.1 ∈ genes))).map Prod.fst

/-- The window-emission loop (src/bio_files_processor.py lines 169-176):
for each matched index, the slice from max(0, index - n_before) (here
truncated natural subtraction) to min(len, index + n_after + 1) is
written out; windows of distinct indices are emitted independently. -/
def select_gene_windows (fasta_list : List (List Char × List Char))
    (genes : List (List Char)) (n_before n_after : ℕ) :
    List (List Char × List Char) :=
  (genes_index fasta_list genes).flatMap (fun index =>
    pySlice fasta_list (index - n_before)
      (min fasta_list.length (index + n_after + 1)))

theorem pySlice_eq_window {α : Type} (l : List α) :
    ∀ s e : ℕ,
    pySlice l s e
      = ((List.range l.length).filter
          (fun j => decide (s ≤ j) && decide (j < e))).filterMap
          (fun j => l[j]?) := by
  induction l with
  | nil => intro s e; simp [pySlice]
  | cons a t ih =>
    intro s e
    rw [List.length_cons, List.range_succ_eq_map, List.filter_cons]
    cases s with
    | zero =>
      cases e with
      | zero =>
        simp [pySlice]
      | succ e' =>
        have hpz : (decide (0 ≤ 0) && decide (0 < e' + 1)) = true := by simp
        rw [hpz, if_pos rfl]
        rw [List.filter_map, List.filterMap_cons]
        have hcongr : (List.range t.length).filter
            ((fun j => decide (0 ≤ j) && decide (j < e' + 1)) ∘ Nat.succ)
            = (List.range t.length).filter
              (fun j => decide (0 ≤ j) && decide (j < e')) := by
          apply List.filter_congr
          intro x _
          simp only [Function.comp]
          have h1 : decide (0 ≤ x.succ) = decide (0 ≤ x) :=
            decide_eq_decide.mpr (by omega)
          have h2 : decide (x.succ < e' + 1) = decide (x < e') :=
            decide_eq_decide.mpr (by omega)
          rw [h1, h2]
        rw [hcongr, List.filterMap_map]
        have hfm : (fun j => (a :: t)[j]?) ∘ Nat.succ = (fun j => t[j]?) := by
          funext j
          simp
        rw [hfm]
        have hlhs : pySlice (a :: t) 0 (e' + 1) = a :: pySlice t 0 e' := by
          simp [pySlice]
        rw [hlhs, List.getElem?_cons_zero]
        exact congrArg _ (ih 0 e')
    | succ s' =>
      have hpz : (decide (s' + 1 ≤ 0) && decide (0 < e)) = false := by simp
      rw [hpz, if_neg (by simp)]
      rw [List.filter_map, List.filterMap_map]
      have hcongr : (List.range t.length).filter
          ((fun j => decide (s' + 1 ≤ j) && decide (j < e)) ∘ Nat.succ)
          = (List.range t.length).filter
            (fun j => decide (s' ≤ j) && decide (j < e - 1)) := by
        apply List.filter_congr
        intro x _
        simp only [Function.comp]
        have h1 : decide (s' + 1 ≤ x.succ) = decide (s' ≤ x) :=
          decide_eq_decide.mpr (by omega)
        have h2 : decide (x.succ < e) = decide (x < e - 1) :=
          decide_eq_decide.mpr (by omega)
        rw [h1, h2]
      rw [hcongr]
      have hfm : (fun j => (a :: t)[j]?) ∘ Nat.succ = (fun j => t[j]?) := by
        funext j
        simp
      rw [hfm]
      have hlhs : pySlice (a :: t) (s' + 1) e = pySlice t s' (e - 1) := by
        simp only [pySlice, List.drop_succ_cons]
        congr 1
        omega
      rw [hlhs, ih s' (e - 1)]

/-- C4: the window extractor emits, for every matched index and
independently per matched index, exactly the committed entries whose
index lies in the half-open window from max(0, index - n_before) (the
truncated subtraction) to min(length, index + n_after + 1), in list
order and clipped to the list without error; on the concrete committed
list A B C D E with query containing B and D and a one-entry window on
each side, it emits A B C then C D E, with C repeated. -/
theorem c4_feature_window_extractor :
    (∀ (fasta_list : List (List Char × List Char))
       (genes : List (List Char)) (n_before n_after : ℕ),
      select_gene_windows fasta_list genes n_before n_after
        = (genes_index fasta_list genes).flatMap (fun index =>
            ((List.range fasta_list.length).filter (fun j =>
                decide (index - n_before ≤ j)
                  && decide (j < min fasta_list.length
                      (index + n_after + 1)))).filterMap
              (fun j => fasta_list[j]?)))
    ∧ select_gene_windows
        [("A".data, "a".data), ("B".data, "b".data), ("C".data, "c".data),
         ("D".data, "d".data), ("E".data, "e".data)]
        ["B".data, "D".data] 1 1
      = [("A".data, "a".data), ("B".data, "b".data), ("C".data, "c".data),
         ("C".data, "c".data), ("D".data, "d".data), ("E".data, "e".data)] := by
  constructor
  · intro l genes nb na
    rw [select_gene_windows]
    congr 1
    funext index
    exact pySlice_eq_window l (index - nb) (min l.length (index + na + 1))
  · decide

/-! ## GenBank block parser: the committed feature list
(src/bio_files_processor.py lines 134-162) -/

/-- Model of the Python line.split(equal sign)[-1]: the text after the
last equal sign, or the whole string when none occurs. -/
def afterLastEq (s : List Char) : List Char :=
  (s.reverse.takeWhile (fun c => !(c = '='))).reverse

/-- Model of a Python line.endswith(quote). -/
def endsWithQuote (s : List Char) : Bool :=
  match s.getLast? with
  | some c => c = '"'
  | none => false

/-- Parser state for the translation-continuation while loop of
select_genes_from_gbk_to_fasta: either scanning for marker lines, or
inside the while loop accumulating continuation lines of a quoted
translation value. -/
inductive GbkMode
  | scanning
  | reading (acc : List Char)

/-- The commit step `if gene and translation:` of the GenBank parser:
an entry is appended only when both the gene name and the translation
are set and non-empty (Python truthiness on optional strings). -/
def gbk_commit (gene translation : Option (List Char)) :
    List (List Char × List Char) :=
  match gene, translation with
  | some g, some t => if g ≠ [] ∧ t ≠ [] then [(g, t)] else []
  | _, _ => []

/-- The line loop of select_genes_from_gbk_to_fasta that assembles the
committed feature list `fasta_list`: a gene marker commits the previous
block and starts a new one; a translation marker (only when awaited)
reads the quoted value, consuming continuation lines until one ends
with the closing quote; input ending inside the while loop makes the
inner `next` call raise, modelled as `none`; a final commit happens at
end of input. -/
def gbk_collect : List (List Char) → Option (List Char) → Option (List Char) →
    Bool → GbkMode → Option (List (List Char × List Char))
  | [], gene, translation, _, .scanning => some (gbk_commit gene translation)
  | [], _, _, _, .reading _ => none
  | l :: ls, gene, translation, t_in_gene, .reading acc =>
    let line := pyStrip l
    let acc' := acc ++ pyStripChar '"' line
    if endsWithQuote line then gbk_collect ls gene (some acc') false .scanning
    else gbk_collect ls gene translation t_in_gene (.reading acc')
  | l :: ls, gene, translation, t_in_gene, .scanning =>
    let line := pyStrip l
    if ("/gene=".data).isPrefixOf line then
      (gbk_collect ls (some (pyStripChar '"' (afterLastEq line))) none true
        .scanning).map (fun r => gbk_commit gene translation ++ r)
    else if ("/translation=".data).isPrefixOf line && t_in_gene then
      let t0 := pyStripChar '"' (pyStrip (afterLastEq line))
      if endsWithQuote line then gbk_collect ls gene (some t0) false .scanning
      else gbk_collect ls gene translation t_in_gene (.reading t0)
    else gbk_collect ls gene translation t_in_gene .scanning

theorem gbk_commit_mem_nonempty (gene translation : Option (List Char)) :
    ∀ p ∈ gbk_commit gene translation, p.1 ≠ [] ∧ p.2 ≠ [] := by
  intro p hp
  match gene, translation with
  | some g, some t =>
    simp only [gbk_commit] at hp
    by_cases h : g ≠ [] ∧ t ≠ []
    · rw [if_pos h] at hp
      simp at hp
      rw [hp]
      exact h
    · rw [if_neg h] at hp
      simp at hp
  | some g, none => simp [gbk_commit] at hp
  | none, t => simp [gbk_commit] at hp

theorem gbk_collect_nonempty :
    ∀ (lines : List (List Char)) (gene translation : Option (List Char))
      (t_in_gene : Bool) (mode : GbkMode)
      (res : List (List Char × List Char)),
    gbk_collect lines gene translation t_in_gene mode = some res →
    ∀ p ∈ res, p.1 ≠ [] ∧ p.2 ≠ [] := by
  intro lines
  induction lines with
  | nil =>
    intro gene translation t_in_gene mode res h p hp
    cases mode with
    | scanning =>
      simp only [gbk_collect, Option.some_inj] at h
      rw [← h] at hp
      exact gbk_commit_mem_nonempty gene translation p hp
    | reading acc => simp [gbk_collect] at h
  | cons l ls ih =>
    intro gene translation t_in_gene mode res h p hp
    cases mode with
    | reading acc =>
      simp only [gbk_collect] at h
      by_cases hq : endsWithQuote (pyStrip l) = true
      · rw [if_pos hq] at h
        exact ih _ _ _ _ _ h p hp
      · rw [if_neg hq] at h
        exact ih _ _ _ _ _ h p hp
    | scanning =>
      simp only [gbk_collect] at h
      by_cases h1 : ("/gene=".data).isPrefixOf (pyStrip l) = true
      · rw [if_pos h1] at h
        obtain ⟨r', hr', hres⟩ := Option.map_eq_some'.mp h
        rw [← hres] at hp
        rcases List.mem_append.mp hp with hc | hm
        · exact gbk_commit_mem_nonempty gene translation p hc
        · exact ih _ _ _ _ _ hr' p hm
      · rw [if_neg h1] at h
        by_cases h2 : (("/translation=".data).isPrefixOf (pyStrip l)
            && t_in_gene) = true
        · rw [if_pos h2] at h
          by_cases hq : endsWithQuote (pyStrip l) = true
          · rw [if_pos hq] at h
            exact ih _ _ _ _ _ h p hp
          · rw [if_neg hq] at h
            exact ih _ _ _ _ _ h p hp
        · rw [if_neg h2] at h
          exact ih _ _ _ _ _ h p hp

/-- C10: whenever the GenBank block parser completes, every committed
(name, value) entry has a non-empty gene name and a non-empty assembled
translation: a block whose extracted name or value is empty is never
committed, whether the commit is attempted at a later gene marker line
or at end of input. -/
theorem c10_gbk_committed_nonempty
    (lines : List (List Char)) (res : List (List Char × List Char))
    (h : gbk_collect lines none none false .scanning = some res) :
    ∀ p ∈ res, p.1 ≠ [] ∧ p.2 ≠ [] :=
  gbk_collect_nonempty lines none none false .scanning res h

/-- C10 witness: c10_gbk_committed_nonempty on a two-line block with a
non-empty gene name and translation. -/
theorem c10_gbk_committed_nonempty_witness :
    ("abc".data, "MK".data).1 ≠ [] ∧ ("abc".data, "MK".data).2 ≠ [] :=
  c10_gbk_committed_nonempty
    ["/gene=\"abc\"".data, "/translation=\"MK\"".data]
    [("abc".data, "MK".data)] (by decide)
    ("abc".data, "MK".data) (by decide)

/-! ## Writer destination checks (file-system model)

Each writer checks `os.path.exists` on its destination once, before
opening any file, and raises `FileExistsError` when the destination is
present. The file system is modelled as a map from path to optional
content; an operation returns its outcome together with the resulting
file system. -/

/-- A file system fragment: path to optional content. -/
def FileSys (α : Type) : Type := String → Option α

/-- Point update of a file system: the write the operation performs on
success. -/
def writeFile {α : Type} (fs : FileSys α) (path : String) (content : α) :
    FileSys α :=
  fun q => if q = path then some content else fs q

/-- Errors a writer can surface: the destination already exists, or the
input ends where the parser must read a further line. -/
inductive WriterError
  | destinationExists
  | unexpectedEndOfInput
deriving DecidableEq

/-- File-level model of `convert_multiline_fasta_to_oneline`
(src/bio_files_processor.py lines 31-50): existence check up front,
then a single write of the converted lines. -/
def run_convert_fasta (fs : FileSys (List (List Char)))
    (inputLines : List (List Char)) (output_fasta : String) :
    Except WriterError Unit × FileSys (List (List Char)) :=
  if (fs output_fasta).isSome then (.error .destinationExists, fs)
  else (.ok (), writeFile fs output_fasta (convert_multiline inputLines))

/-- File-level model of `parse_blast_output` (src/bio_files_processor.py
lines 78-92): existence check up front, then collection (which can fail
on a trailing Description line), then a single write. -/
def run_parse_blast (fs : FileSys (List (List Char)))
    (inputLines : List (List Char)) (output_file : String) :
    Except WriterError Unit × FileSys (List (List Char)) :=
  if (fs output_file).isSome then (.error .destinationExists, fs)
  else
    match parse_blast_output inputLines with
    | none => (.error .unexpectedEndOfInput, fs)
    | some ds => (.ok (), writeFile fs output_file ds)

/-- File-level model of `select_genes_from_gbk_to_fasta`
(src/bio_files_processor.py lines 131-176): existence check up front,
then block parsing (which can fail on an unterminated translation),
then the window write. -/
def run_select_genes (fs : FileSys (List (List Char × List Char)))
    (inputLines : List (List Char)) (genes : List (List Char))
    (n_before n_after : ℕ) (output_fasta : String) :
    Except WriterError Unit × FileSys (List (List Char × List Char)) :=
  if (fs output_fasta).isSome then (.error .destinationExists, fs)
  else
    match gbk_collect inputLines none none false .scanning with
    | none => (.error .unexpectedEndOfInput, fs)
    | some fasta_list =>
      (.ok (), writeFile fs output_fasta
        (select_gene_windows fasta_list genes n_before n_after))

/-- File-level model of `filter_fastq` (src/seqsmith.py lines 199-258):
the destination is the output name inside the filtered directory, its
existence is checked once before bounds normalization and before any
record is read, and on success the filtered records are written. -/
def run_filter_fastq (fs : FileSys (List FqItem)) (records : List FqItem)
    (gc_bounds length_bounds : Sum ℚ (ℚ × ℚ)) (quality_threshold : ℚ)
    (output_fastq : String) :
    Except WriterError Unit × FileSys (List FqItem) :=
  let output_path := "filtered/" ++ output_fastq
  if (fs output_path).isSome then (.error .destinationExists, fs)
  else (.ok (), writeFile fs output_path
    (filter_fastq_records records (normalize_bounds gc_bounds)
      (normalize_bounds length_bounds) quality_threshold))

/-- C6: each of the four writers raises the destination-exists error
when its target path is present at the start, before performing any
write and leaving the file system unchanged; when the target is absent
the check never fires again (no per-record re-check), and the
non-parsing writers perform their single write. -/
theorem c6_writers_refuse_existing_destination :
    (∀ (fs : FileSys (List (List Char))) (inputLines : List (List Char))
       (out : String),
      ((fs out).isSome = true →
        run_convert_fasta fs inputLines out = (.error .destinationExists, fs))
      ∧ ((fs out).isSome = false →
        run_convert_fasta fs inputLines out
          = (.ok (), writeFile fs out (convert_multiline inputLines))))
    ∧ (∀ (fs : FileSys (List (List Char))) (inputLines : List (List Char))
        (out : String),
      ((fs out).isSome = true →
        run_parse_blast fs inputLines out = (.error .destinationExists, fs))
      ∧ ((fs out).isSome = false →
        (run_parse_blast fs inputLines out).1 ≠ .error .destinationExists))
    ∧ (∀ (fs : FileSys (List (List Char × List Char)))
        (inputLines : List (List Char)) (genes : List (List Char))
        (n_before n_after : ℕ) (out : String),
      ((fs out).isSome = true →
        run_select_genes fs inputLines genes n_before n_after out
          = (.error .destinationExists, fs))
      ∧ ((fs out).isSome = false →
        (run_select_genes fs inputLines genes n_before n_after out).1
          ≠ .error .destinationExists))
    ∧ (∀ (fs : FileSys (List FqItem)) (records : List FqItem)
        (gc_bounds length_bounds : Sum ℚ (ℚ × ℚ)) (quality_threshold : ℚ)
        (out : String),
      ((fs ("filtered/" ++ out)).isSome = true →
        run_filter_fastq fs records gc_bounds length_bounds quality_threshold
          out = (.error .destinationExists, fs))
      ∧ ((fs ("filtered/" ++ out)).isSome = false →
        run_filter_fastq fs records gc_bounds length_bounds quality_threshold
          out = (.ok (), writeFile fs ("filtered/" ++ out)
            (filter_fastq_records records (normalize_bounds gc_bounds)
              (normalize_bounds length_bounds) quality_threshold)))) := by
  refine ⟨fun fs inputLines out => ⟨fun h => ?_, fun h => ?_⟩,
    fun fs inputLines out => ⟨fun h => ?_, fun h => ?_⟩,
    fun fs inputLines genes nb na out => ⟨fun h => ?_, fun h => ?_⟩,
    fun fs records gcB lenB qT out => ⟨fun h => ?_, fun h => ?_⟩⟩
  · simp [run_convert_fasta, h]
  · simp [run_convert_fasta, h]
  · simp [run_parse_blast, h]
  · rw [run_parse_blast, if_neg (by simp [h])]
    cases hp : parse_blast_output inputLines <;> simp
  · simp [run_select_genes, h]
  · rw [run_select_genes, if_neg (by simp [h])]
    cases hp : gbk_collect inputLines none none false .scanning <;> simp
  · simp [run_filter_fastq, h]
  · simp [run_filter_fastq, h]

/-- C6 witness: a file system in which each destination is present: all
four writers answer with the destination-exists error and leave the file
system unchanged. -/
theorem c6_writers_refuse_existing_destination_witness :
    (((fun _ => some ([] : List (List Char))) : FileSys (List (List Char)))
        "o1").isSome = true
    ∧ run_convert_fasta (fun _ => some []) [] "o1"
      = (.error .destinationExists, fun _ => some [])
    ∧ run_parse_blast (fun _ => some []) [] "o2"
      = (.error .destinationExists, fun _ => some [])
    ∧ run_select_genes (fun _ => some []) [] [] 1 1 "o3"
      = (.error .destinationExists, fun _ => some [])
    ∧ run_filter_fastq (fun _ => some []) [] (.inl 100) (.inl 50) 0 "o4"
      = (.error .destinationExists, fun _ => some []) :=
  ⟨rfl,
    (c6_writers_refuse_existing_destination.1 _ [] "o1").1 rfl,
    (c6_writers_refuse_existing_destination.2.1 _ [] "o2").1 rfl,
    (c6_writers_refuse_existing_destination.2.2.1 _ [] [] 1 1 "o3").1 rfl,
    (c6_writers_refuse_existing_destination.2.2.2 _ [] (.inl 100) (.inl 50)
      0 "o4").1 rfl⟩
